import Mathlib

/-!
Shallow embedding of the graph-integrity and query engine of
application/database/db.py (class Standard_collection and its helpers).

Modelling conventions:
* SQLAlchemy tables are lists of records kept in insertion order;
  query(...).filter(...).first() is List.find?, session.add appends,
  mutating an ORM row updates that row in place.
* The networkx DiGraph mirror is a Graph record: a node list and a
  directed edge list; add_node / add_edge ignore duplicates exactly as
  networkx does.  nx.find_cycle(G) succeeds iff the graph has a directed
  cycle; it is embedded as the executable detector hasCycle, proved
  equivalent to the propositional acyclicity notion below.
* Python exceptions (ValueError, AttributeError, networkx NodeNotFound)
  are Except errors; a function that logs and returns leaving the state
  untouched is modelled as returning the unchanged state.
* Python string truthiness is emptiness: optional string parameters that
  the source checks only for truthiness are plain strings with "" for
  None/"".  Link-type strings are the closed enumeration LinkTypes.
-/

inductive LinkTypes where
  | Same
  | Contains
  | PartOf
  | Related
  | LinkedTo
  deriving DecidableEq, Repr

/-- A node of the in-memory mirror: the source uses the string keys
"CRE: {id}" and "Standard: {id}"; the tagged union is the same data. -/
inductive GNode where
  | cre (i : Nat)
  | std (i : Nat)
  deriving DecidableEq, Repr

/-- The networkx DiGraph mirror: node list plus directed edge list. -/
structure Graph where
  nodes : List GNode
  edges : List (GNode × GNode)
  deriving DecidableEq, Repr

def Graph.addNode (g : Graph) (n : GNode) : Graph :=
  if n ∈ g.nodes then g else { g with nodes := g.nodes ++ [n] }

/-- networkx add_edge: inserts both endpoints as nodes, then the edge,
ignoring anything already present. -/
def Graph.addEdge (g : Graph) (a b : GNode) : Graph :=
  let g1 := (g.addNode a).addNode b
  if (a, b) ∈ g1.edges then g1 else { g1 with edges := g1.edges ++ [(a, b)] }

/-- The directed edge relation of a mirror graph. -/
def EdgeRel (g : Graph) (a b : GNode) : Prop := (a, b) ∈ g.edges

/-- The graph seen as undirected (nx Graph.to_undirected): every edge in
both directions. -/
def Graph.undirected (g : Graph) : Graph :=
  { nodes := g.nodes, edges := g.edges ++ g.edges.map (fun e => (e.2, e.1)) }

/-- The undirected adjacency relation of a mirror graph. -/
def UEdge (g : Graph) (a b : GNode) : Prop := (a, b) ∈ g.edges ∨ (b, a) ∈ g.edges

/-- One step of forward-reachability saturation: add every direct
successor of the current set. -/
def stepF (g : Graph) (s : Finset GNode) : Finset GNode :=
  s ∪ ((g.edges.filter (fun e => decide (e.1 ∈ s))).map Prod.snd).toFinset

/-- Saturated forward-reachability set from a node (enough iterations to
reach the fixed point: one per edge, plus one). -/
def reachSet (g : Graph) (a : GNode) : Finset GNode :=
  (stepF g)^[g.edges.length + 1] {a}

/-- Executable reachability test over the mirror. -/
def reachableB (g : Graph) (a b : GNode) : Bool := decide (b ∈ reachSet g a)

/-- Executable embedding of nx.find_cycle's success/failure: a directed
cycle exists iff some edge closes back to its own source. -/
def hasCycle (g : Graph) : Bool :=
  g.edges.any (fun e => reachableB g e.2 e.1)

/-- Propositional acyclicity of the mirror: no nonempty directed path
from a node back to itself. -/
def Acyclic (g : Graph) : Prop :=
  ∀ n : GNode, ¬ Relation.TransGen (EdgeRel g) n n

/-! ## Data model: table rows and the collection state -/

/-- A persisted row of the cre table (class CRE), fields in source order:
surrogate id, external_id, description, name, tags (comma separated). -/
structure CreRow where
  id : Nat
  external_id : String
  description : String
  name : String
  tags : String
  deriving DecidableEq, Repr

/-- A persisted row of the standard table (class Standard). -/
structure StdRow where
  id : Nat
  name : String
  sectionName : String
  subsection : String
  tags : String
  version : String
  link : String
  deriving DecidableEq, Repr

/-- A row of the crelinks table (class InternalLinks): a typed edge
group -> cre between two CRE ids. -/
structure IlRow where
  type : LinkTypes
  group : Nat
  cre : Nat
  deriving DecidableEq, Repr

/-- A row of the links table (class Links): a typed edge cre -> standard. -/
structure LRow where
  type : LinkTypes
  cre : Nat
  standard : Nat
  deriving DecidableEq, Repr

/-- The whole Standard_collection: the four tables plus the in-memory
mirror self.cre_graph. -/
structure DBState where
  cres : List CreRow
  standards : List StdRow
  internalLinks : List IlRow
  links : List LRow
  graph : Graph
  deriving DecidableEq, Repr

/-- Python exceptions that the modelled code can raise. -/
inductive PyErr where
  | valueErr
  | attrErr
  | nodeNotFound
  deriving DecidableEq, Repr

/-- An in-memory CRE object handed to add_internal_link / add_link:
id and external_id may be unset (None). -/
structure CreArg where
  id : Option Nat
  external_id : Option String
  name : String
  description : String
  deriving DecidableEq, Repr

/-- An in-memory Standard object handed to add_link. -/
structure StdArg where
  id : Option Nat
  name : String
  sectionName : String
  subsection : String
  version : String
  deriving DecidableEq, Repr

/-- str.lower / func.lower, on the underlying characters. -/
def lowerStr (s : String) : String := String.mk (s.data.map Char.toLower)

/-- Update the first row accepted by the predicate (the ORM mutation of
query(...).first() followed by attribute assignment). -/
def updateFirst (p : α → Bool) (f : α → α) : List α → List α
  | [] => []
  | x :: xs => if p x then f x :: xs else x :: updateFirst p f xs

/-- Sequential Except-valued map: stops at the first raised exception,
like a Python for-loop. -/
def mapE (f : α → Except ε β) : List α → Except ε (List β)
  | [] => .ok []
  | x :: xs => do
      let y ← f x
      let ys ← mapE f xs
      .ok (y :: ys)

/-! ## Entity upserts (add_cre) -/

/-- A cre_defs.CRE document given to add_cre: id is the external
identifier string ("" when unset). -/
structure CreDef where
  id : String
  name : String
  description : String
  tags : List String
  deriving DecidableEq, Repr

/-- Fresh surrogate id for a newly inserted row (database autoincrement). -/
def freshCreId (s : DBState) : Nat :=
  (s.cres.map (fun r => r.id)).foldr max 0 + 1

/-- The row lookup of add_cre: lowercased name plus external_id when the
document carries one, else lowercased description. -/
def creUpsertPred (cre : CreDef) (r : CreRow) : Bool :=
  decide (lowerStr r.name = lowerStr cre.name) &&
    (if cre.id ≠ "" then decide (r.external_id = cre.id)
     else decide (lowerStr r.description = lowerStr cre.description))

/-- The in-place field updates add_cre applies to a found row: each of
external_id, description and tags is filled from the document when it is
currently empty. -/
def creUpsertUpd (cre : CreDef) (r : CreRow) : CreRow :=
  if r.external_id = "" then
    if r.description = "" then
      if r.tags = "" then
        { r with external_id := cre.id, description := cre.description,
                 tags := String.intercalate "," cre.tags }
      else { r with external_id := cre.id, description := cre.description }
    else
      if r.tags = "" then
        { r with external_id := cre.id, tags := String.intercalate "," cre.tags }
      else { r with external_id := cre.id }
  else
    if r.description = "" then
      if r.tags = "" then
        { r with description := cre.description,
                 tags := String.intercalate "," cre.tags }
      else { r with description := cre.description }
    else
      if r.tags = "" then { r with tags := String.intercalate "," cre.tags }
      else r

/-- The fresh row add_cre inserts when the lookup finds nothing. -/
def freshCreRow (s : DBState) (cre : CreDef) : CreRow :=
  { id := freshCreId s, external_id := cre.id, description := cre.description,
    name := cre.name, tags := String.intercalate "," cre.tags }

/-- Standard_collection.add_cre: look an existing row up by lowercased
name plus (external_id if the document carries one, else lowercased
description); update empty fields of a found row, raising ValueError when
the found row's empty external_id differs from the incoming id; insert a
new row (and a mirror node) otherwise.  Returns the affected row and the
new state. -/
def add_cre (s : DBState) (cre : CreDef) : Except PyErr (CreRow × DBState) :=
  match s.cres.find? (creUpsertPred cre) with
  | some entry =>
      if entry.external_id = "" ∧ entry.external_id ≠ cre.id then .error .valueErr
      else
        .ok (creUpsertUpd cre entry,
          { s with cres := updateFirst (creUpsertPred cre) (creUpsertUpd cre) s.cres })
  | none =>
      .ok (freshCreRow s cre,
        { s with cres := s.cres ++ [freshCreRow s cre],
                 graph := s.graph.addNode (.cre (freshCreRow s cre).id) })

/-! ## Link mutators -/

/-- Standard_collection.__introduces_cycle: raise ValueError when the
live mirror already has a cycle; otherwise report whether adding the
candidate edge to a scratch copy creates one. -/
def introduces_cycle (g : Graph) (nfrom nto : GNode) : Except PyErr Bool :=
  if hasCycle g then .error .valueErr
  else .ok (hasCycle (g.addEdge nfrom nto))

/-- Endpoint resolution in add_internal_link: an argument carrying an id
is used as-is; otherwise the first row matching (name, external_id) or
(name, description) is taken. -/
def resolve_cre (s : DBState) (a : CreArg) : Option CreRow :=
  match a.id with
  | some i =>
      some { id := i, external_id := a.external_id.getD "",
             description := a.description, name := a.name, tags := "" }
  | none =>
      match a.external_id with
      | none => s.cres.find? (fun r =>
          decide (r.name = a.name) && decide (r.description = a.description))
      | some eid => s.cres.find? (fun r =>
          decide (r.name = a.name) && decide (r.external_id = eid))

/-- The existing-row test of add_internal_link: a crelinks row between
the pair in either orientation. -/
def ilMatch (gid mid : Nat) (r : IlRow) : Bool :=
  (decide (r.cre = gid) && decide (r.group = mid)) ||
  (decide (r.cre = mid) && decide (r.group = gid))

/-- Standard_collection.add_internal_link group cre type: resolve both
endpoints (log-and-return when either is missing), retype an existing row
in either orientation, otherwise cycle-check the candidate edge
CRE:group -> CRE:cre and insert row and mirror edge when safe. -/
def add_internal_link (s : DBState) (group cre : CreArg) (t : LinkTypes) :
    Except PyErr DBState :=
  match resolve_cre s cre, resolve_cre s group with
  | some m, some g =>
      match s.internalLinks.find? (ilMatch g.id m.id) with
      | some _ =>
          let upd :=
            updateFirst (ilMatch g.id m.id) (fun r => { r with type := t }) s.internalLinks
          .ok { s with internalLinks := upd }
      | none => do
          let cyc ← introduces_cycle s.graph (.cre g.id) (.cre m.id)
          if cyc then .ok s
          else .ok { s with
            internalLinks := s.internalLinks ++ [⟨t, g.id, m.id⟩],
            graph := s.graph.addEdge (.cre g.id) (.cre m.id) }
  | _, _ => .ok s

/-- Endpoint resolution in add_link: the CRE by exact name only. -/
def resolve_cre_by_name (s : DBState) (a : CreArg) : Option CreRow :=
  match a.id with
  | some i =>
      some { id := i, external_id := a.external_id.getD "",
             description := a.description, name := a.name, tags := "" }
  | none => s.cres.find? (fun r => decide (r.name = a.name))

/-- Endpoint resolution in add_link: the Standard by exact
(name, section, subsection, version). -/
def resolve_std (s : DBState) (a : StdArg) : Option StdRow :=
  match a.id with
  | some i =>
      some { id := i, name := a.name, sectionName := a.sectionName,
             subsection := a.subsection, tags := "", version := a.version,
             link := "" }
  | none => s.standards.find? (fun r =>
      decide (r.name = a.name) && decide (r.sectionName = a.sectionName) &&
      decide (r.subsection = a.subsection) && decide (r.version = a.version))

/-- The existing-row test of add_link (one orientation only). -/
def lMatch (cid sid : Nat) (r : LRow) : Bool :=
  decide (r.cre = cid) && decide (r.standard = sid)

/-- Standard_collection.add_link cre standard type: resolve both
endpoints (an unresolvable one crashes with AttributeError at the .id
access), retype an existing row, otherwise cycle-check the candidate edge
CRE:cre -> Standard:standard and insert row and mirror edge when safe. -/
def add_link (s : DBState) (cre : CreArg) (std : StdArg) (t : LinkTypes) :
    Except PyErr DBState :=
  match resolve_cre_by_name s cre, resolve_std s std with
  | some c, some d =>
      match s.links.find? (lMatch c.id d.id) with
      | some _ =>
          let upd :=
            updateFirst (lMatch c.id d.id) (fun r => { r with type := t }) s.links
          .ok { s with links := upd }
      | none => do
          let cyc ← introduces_cycle s.graph (.cre c.id) (.std d.id)
          if cyc then .ok s
          else .ok { s with
            links := s.links ++ [⟨t, c.id, d.id⟩],
            graph := s.graph.addEdge (.cre c.id) (.std d.id) }
  | _, _ => .error .attrErr

/-! ## Sequences of link upserts (for the global acyclicity invariant) -/

/-- One link-upsert request issued against the collection. -/
inductive Op where
  | internal (group cre : CreArg) (t : LinkTypes)
  | external (cre : CreArg) (std : StdArg) (t : LinkTypes)
  deriving DecidableEq, Repr

/-- Apply one upsert; a raised exception leaves the collection as it was
(the source raises before performing any write). -/
def applyOp (s : DBState) : Op → DBState
  | .internal g c t =>
      match add_internal_link s g c t with
      | .ok s1 => s1
      | .error _ => s
  | .external c d t =>
      match add_link s c d t with
      | .ok s1 => s1
      | .error _ => s

def applyOps (s : DBState) (ops : List Op) : DBState := ops.foldl applyOp s

/-! ## Document projection and filtered queries -/

/-- The external document shape (cre_defs) without its link list:
CREfromDB / StandardFromDB output.  Tag strings are split on commas into
a set, modelled as a first-occurrence deduplicated list. -/
inductive BaseDoc where
  | creD (id name description : String) (tags : List String)
  | stdD (name sectionName subsection version hyperlink : String) (tags : List String)
  deriving DecidableEq, Repr

def splitTags (t : String) : List String :=
  if t = "" then [] else (t.splitOn ",").dedup

/-- CREfromDB. -/
def creBase (r : CreRow) : BaseDoc :=
  .creD r.external_id r.name r.description (splitTags r.tags)

/-- StandardFromDB. -/
def stdBase (r : StdRow) : BaseDoc :=
  .stdD r.name r.sectionName r.subsection r.version r.link (splitTags r.tags)

/-- A projected document together with its ordered typed link list. -/
structure ResultDoc where
  base : BaseDoc
  links : List (LinkTypes × BaseDoc)
  deriving DecidableEq, Repr

def lookupCre (s : DBState) (i : Nat) : Option CreRow :=
  s.cres.find? (fun r => decide (r.id = i))

def lookupStd (s : DBState) (i : Nat) : Option StdRow :=
  s.standards.find? (fun r => decide (r.id = i))

/-- Query parameters of get_CREs ("" plays Python None/""). -/
structure CreQ where
  external_id : String
  name : String
  description : String
  loose : Bool
  include_only : List String
  deriving DecidableEq, Repr

/-- Query parameters of get_standards / __get_standards_query__. -/
structure StdQ where
  name : String
  sectionName : String
  subsection : String
  link : String
  version : String
  loose : Bool
  include_only : List String
  deriving DecidableEq, Repr

/-- SQL LIKE with % (any run) and _ (any one character) wildcards, used
for the partial=True query mode (the source's "partial" flag is the
field loose here). -/
def likeMatch : List Char → List Char → Bool
  | [], [] => true
  | [], _ :: _ => false
  | '%' :: ps, [] => likeMatch ps []
  | '%' :: ps, c :: cs => likeMatch ps (c :: cs) || likeMatch ('%' :: ps) cs
  | '_' :: _, [] => false
  | '_' :: ps, _ :: cs => likeMatch ps cs
  | _ :: _, [] => false
  | p :: ps, c :: cs => decide (p = c) && likeMatch ps cs
termination_by p s => (p.length, s.length)

/-- One conjunct of a filtered query: skipped when the parameter is
falsy, exact or LIKE depending on the partial flag, with both sides
lowercased exactly where the source wraps them in func.lower (LIKE
itself is taken case-sensitive, the SQL-standard reading; the source
relies on the explicit lowering for its case-insensitive fields). -/
def fieldCond (loose lower : Bool) (param field : String) : Bool :=
  decide (param = "") ||
    (let p := if lower then lowerStr param else param
     let f := if lower then lowerStr field else field
     if loose then likeMatch p.data f.data else decide (f = p))

/-- The WHERE clause built by get_CREs. -/
def creFilter (q : CreQ) (r : CreRow) : Bool :=
  fieldCond q.loose false q.external_id r.external_id &&
  fieldCond q.loose true q.name r.name &&
  fieldCond q.loose true q.description r.description

/-- The WHERE clause built by __get_standards_query__. -/
def stdFilter (q : StdQ) (r : StdRow) : Bool :=
  fieldCond q.loose true q.name r.name &&
  fieldCond q.loose true q.sectionName r.sectionName &&
  fieldCond q.loose true q.subsection r.subsection &&
  fieldCond q.loose false q.link r.link &&
  fieldCond q.loose false q.version r.version

/-- Standard_collection.__get_standards_query__: ValueError when every
filter parameter is falsy, else the filtered rows. -/
def get_standards_query (s : DBState) (q : StdQ) : Except PyErr (List StdRow) :=
  if q.name = "" ∧ q.sectionName = "" ∧ q.subsection = "" ∧ q.link = "" ∧ q.version = ""
  then .error .valueErr
  else .ok (s.standards.filter (stdFilter q))

/-- The external-link entries of a CRE document (the linked_standards
loop of get_CREs): a dangling standard id crashes in StandardFromDB, an
include_only filter keeps only named standards. -/
def creExtEntries (s : DBState) (io : List String) :
    List LRow → Except PyErr (List (LinkTypes × BaseDoc))
  | [] => .ok []
  | ls :: rest =>
      match lookupStd s ls.standard with
      | none => .error .attrErr
      | some st => do
          let r ← creExtEntries s io rest
          if io.isEmpty ∨ st.name ∈ io then .ok ((ls.type, stdBase st) :: r)
          else .ok r

/-- The display rule for one internal-link row seen from the CRE with id
selfId (lines 455-472 of db.py): on the member side a stored Contains is
displayed as PartOf toward the group; on the group side the stored type
is displayed unchanged toward the member. -/
def ilEntry (s : DBState) (selfId : Nat) (il : IlRow) :
    Except PyErr (LinkTypes × BaseDoc) :=
  if il.cre = selfId then
    match lookupCre s il.group with
    | none => .error .attrErr
    | some res =>
        .ok (if il.type = LinkTypes.Contains then LinkTypes.PartOf else il.type,
             creBase res)
  else
    match lookupCre s il.cre with
    | none => .error .attrErr
    | some res => .ok (il.type, creBase res)

/-- The document get_CREs builds for one matched row: external links
first, then the internal links touching the row on either side. -/
def creDocFor (s : DBState) (io : List String) (row : CreRow) :
    Except PyErr ResultDoc := do
  let ext ← creExtEntries s io (s.links.filter (fun l => decide (l.cre = row.id)))
  let ils := s.internalLinks.filter
    (fun il => decide (il.cre = row.id) || decide (il.group = row.id))
  let ints ← mapE (ilEntry s row.id) ils
  .ok ⟨creBase row, ext ++ ints⟩

/-- Standard_collection.get_CREs: refuse an all-empty query with an
absent result and no store access; otherwise filter, return None when
nothing matches, and project each row to a document. -/
def get_CREs (s : DBState) (q : CreQ) : Except PyErr (Option (List ResultDoc)) :=
  if q.external_id = "" ∧ q.name = "" ∧ q.description = "" then .ok none
  else
    let rows := s.cres.filter (creFilter q)
    if rows.isEmpty then .ok none
    else (mapE (creDocFor s q.include_only) rows).map some

/-- The linked-CRE entries of a standard document (get_standards): a
dangling cre id crashes, include_only keeps CREs named by external id or
name. -/
def stdCreEntries (s : DBState) (io : List String) :
    List LRow → Except PyErr (List (LinkTypes × BaseDoc))
  | [] => .ok []
  | ls :: rest =>
      match lookupCre s ls.cre with
      | none => .error .attrErr
      | some c => do
          let r ← stdCreEntries s io rest
          if io.isEmpty ∨ c.external_id ∈ io ∨ c.name ∈ io
          then .ok ((ls.type, creBase c) :: r)
          else .ok r

/-- The document get_standards builds for one matched row. -/
def stdDocFor (s : DBState) (io : List String) (row : StdRow) :
    Except PyErr ResultDoc := do
  let es ← stdCreEntries s io (s.links.filter (fun l => decide (l.standard = row.id)))
  .ok ⟨stdBase row, es⟩

/-- Standard_collection.get_standards. -/
def get_standards (s : DBState) (q : StdQ) : Except PyErr (Option (List ResultDoc)) := do
  let rows ← get_standards_query s q
  if rows.isEmpty then .ok none
  else (mapE (stdDocFor s q.include_only) rows).map some

/-! ## Path queries and gap analysis -/

/-- Standard_collection.find_path_between_standards: nx.has_path over
the undirected view of the mirror; networkx raises NodeNotFound when
either endpoint is not a node. -/
def find_path_between_standards (s : DBState) (src dst : Nat) : Except PyErr Bool :=
  let u := s.graph.undirected
  if GNode.std src ∈ u.nodes ∧ GNode.std dst ∈ u.nodes
  then .ok (reachableB u (.std src) (.std dst))
  else .error .nodeNotFound

/-- The rows gap_analysis works over: every standard row whose name is
in the requested list, in request order. -/
def gapStandards (s : DBState) (names : List String) : List StdRow :=
  names.flatMap (fun n => s.standards.filter (fun r => decide (r.name = n)))

/-- The LinkedTo annotations gap_analysis attaches to one standard:
one toward every other row (different id) with a connecting path. -/
def gapLinksFor (s : DBState) (st : StdRow) :
    List StdRow → Except PyErr (List (LinkTypes × BaseDoc))
  | [] => .ok []
  | o :: os =>
      if st.id = o.id then gapLinksFor s st os
      else do
        let b ← find_path_between_standards s st.id o.id
        let rest ← gapLinksFor s st os
        if b then .ok ((LinkTypes.LinkedTo, stdBase o) :: rest) else .ok rest

/-- Standard_collection.gap_analysis: pure read of store and mirror,
returning annotated documents and persisting nothing. -/
def gap_analysis (s : DBState) (names : List String) : Except PyErr (List ResultDoc) :=
  let db := gapStandards s names
  mapE (fun st => (gapLinksFor s st db).map (fun l => ⟨stdBase st, l⟩)) db

/-! ## Text search: re.search embeddings of the four patterns

The character classes \d and \w and the IGNORECASE folding are taken at
their ASCII meaning (Char.isDigit, Char.isAlphanum, Char.toLower); the
matchers were differential-tested against Python re over the relevant
alphabet.  Each pattern is anchored at a position and tried leftmost
first, exactly as re.search does. -/

def lcEq (a b : Char) : Bool := decide (a.toLower = b.toLower)

/-- Case-insensitive literal match returning the rest of the input
(IGNORECASE literal chunk of a pattern). -/
def matchLit : List Char → List Char → Option (List Char)
  | [], s => some s
  | _ :: _, [] => none
  | c :: cs, x :: xs => if lcEq c x then matchLit cs xs else none

/-- The (:| ) separator alternative of the search patterns. -/
def matchSep : List Char → Option (List Char)
  | c :: rest => if c = ':' ∨ c = ' ' then some rest else none
  | [] => none

def isWordC (c : Char) : Bool := c.isAlphanum || decide (c = '_')

/-- Greedy \d+-\d+ anchored at the current position (the id group of
cre_id_search). -/
def matchIdAt (s : List Char) : Option (List Char) :=
  if (s.takeWhile Char.isDigit).isEmpty then none
  else
    match s.dropWhile Char.isDigit with
    | '-' :: r2 =>
        if (r2.takeWhile Char.isDigit).isEmpty then none
        else some (s.takeWhile Char.isDigit ++ '-' :: r2.takeWhile Char.isDigit)
    | _ => none

/-- CRE(:| )(?P<id>\d+-\d+) anchored at the current position. -/
def creIdAt (s : List Char) : Option (List Char) :=
  (matchLit ['C', 'R', 'E'] s).bind fun r => (matchSep r).bind matchIdAt

/-- \d\d\d-\d\d\d anchored at the current position. -/
def nakedIdAt : List Char → Option (List Char)
  | a :: b :: c :: '-' :: d :: e :: f :: _ =>
      if a.isDigit && b.isDigit && c.isDigit && d.isDigit && e.isDigit && f.isDigit
      then some [a, b, c, '-', d, e, f] else none
  | _ => none

/-- CRE(:| )(?P<name>\w+) anchored at the current position. -/
def creNameAt (s : List Char) : Option (List Char) :=
  (matchLit ['C', 'R', 'E'] s).bind fun r =>
    (matchSep r).bind fun r2 =>
      let w := r2.takeWhile isWordC
      if w.isEmpty then none else some w

/-- https?://[^\s]+ anchored at the current position, returning the
matched text and the rest. -/
def urlAt (s : List Char) : Option (List Char × List Char) :=
  (matchLit ['h', 't', 't', 'p'] s).bind fun r1 =>
    let afterScheme :=
      match r1 with
      | c :: r2 =>
          if lcEq c 's' then
            match matchLit [':', '/', '/'] r2 with
            | some r3 => some r3
            | none => matchLit [':', '/', '/'] r1
          else matchLit [':', '/', '/'] r1
      | [] => none
    afterScheme.bind fun r3 =>
      let body := r3.takeWhile (fun c => !c.isWhitespace)
      if body.isEmpty then none
      else
        let rest := r3.dropWhile (fun c => !c.isWhitespace)
        some (s.take (s.length - rest.length), rest)

/-- The optional group ((:| )\w+): the val1 capture. -/
def sepWordAt (r : List Char) : Option (List Char × List Char) :=
  (matchSep r).bind fun r2 =>
    if (r2.takeWhile isWordC).isEmpty then none
    else some (r2.takeWhile isWordC, r2.dropWhile isWordC)

/-- The optional groups ((:| ).+): the val2/val3 captures; the greedy
dot stops only at a newline. -/
def sepRestAt (r : List Char) : Option (List Char × List Char) :=
  (matchSep r).bind fun r2 =>
    if (r2.takeWhile (fun c => decide (c ≠ '\n'))).isEmpty then none
    else some (r2.takeWhile (fun c => decide (c ≠ '\n')),
      r2.dropWhile (fun c => decide (c ≠ '\n')))

/-- One optional capturing group of standard_search: take the capture
and advance when the group matches, else capture nothing and stay. -/
def stepGroup (f : List Char → Option (List Char × List Char))
    (cur : List Char) : Option (List Char) × List Char :=
  match f cur with
  | some (grp, rest) => (some grp, rest)
  | none => (none, cur)

/-- The link group of standard_search: a separator followed by a URL. -/
def linkStep (r0 : List Char) : Option (List Char) × List Char :=
  match matchSep r0 with
  | some ra =>
      match urlAt ra with
      | some (grp, rest) => (some grp, rest)
      | none => (none, r0)
  | none => (none, r0)

/-- standard_search anchored at the current position: literal Standard,
then the optional link, val1, val2, val3 groups; each group is greedy
and, everything after it being optional, never revisited. -/
def standardAt (s : List Char) :
    Option (Option (List Char) × Option (List Char) × Option (List Char) ×
      Option (List Char)) :=
  match matchLit ['S', 't', 'a', 'n', 'd', 'a', 'r', 'd'] s with
  | none => none
  | some r0 =>
      some ((linkStep r0).1,
        (stepGroup sepWordAt (linkStep r0).2).1,
        (stepGroup sepRestAt (stepGroup sepWordAt (linkStep r0).2).2).1,
        (stepGroup sepRestAt
          (stepGroup sepRestAt (stepGroup sepWordAt (linkStep r0).2).2).2).1)

/-- re.search: try the anchored matcher at every position, leftmost
first, the empty suffix included. -/
def searchAux (f : List Char → Option α) : List Char → Option α
  | [] => f []
  | c :: rest =>
      match f (c :: rest) with
      | some v => some v
      | none => searchAux f rest

/-- itertools.permutations of three values, in itertools order. -/
def perm3 (a b c : α) : List (α × α × α) :=
  [(a, b, c), (a, c, b), (b, a, c), (b, c, a), (c, a, b), (c, b, a)]

/-- itertools.permutations of four values, in itertools order. -/
def perm4 (a b c d : α) : List (α × α × α × α) :=
  [(a, b, c, d), (a, b, d, c), (a, c, b, d), (a, c, d, b), (a, d, b, c), (a, d, c, b),
   (b, a, c, d), (b, a, d, c), (b, c, a, d), (b, c, d, a), (b, d, a, c), (b, d, c, a),
   (c, a, b, d), (c, a, d, b), (c, b, a, d), (c, b, d, a), (c, d, a, b), (c, d, b, a),
   (d, a, b, c), (d, a, c, b), (d, b, a, c), (d, b, c, a), (d, c, a, b), (d, c, b, a)]

/-- The get_CREs query issued by the external-id shortcut branches. -/
def creIdQuery (idStr : String) : CreQ := ⟨idStr, "", "", false, []⟩

/-- The get_CREs query issued by the name shortcut branch. -/
def creNameQuery (nm : String) : CreQ := ⟨"", nm, "", false, []⟩

/-- One Standard-branch query: a (name, section, subsection) assignment
of the captured values plus the captured link. -/
def stdComboQuery (lk : String) (c : Option String × Option String × Option String) :
    StdQ :=
  ⟨c.1.getD "", c.2.1.getD "", c.2.2.getD "", lk, "", false, []⟩

/-- The union loop of the Standard branch: query every assignment,
extend with each non-empty result, in loop order. -/
def permQueryUnion (s : DBState) (lk : String) :
    List (Option String × Option String × Option String) →
      Except PyErr (List ResultDoc)
  | [] => .ok []
  | c :: rest => do
      let stands ← get_standards s (stdComboQuery lk c)
      let r ← permQueryUnion s lk rest
      match stands with
      | some l => .ok (l ++ r)
      | none => .ok r

/-- The Standard branch of text_search: permutation union followed by
the list(set(...)) deduplication. -/
def standardBranch (s : DBState) (lk : String) (v1 v2 v3 : Option String) :
    Except PyErr (Option (List ResultDoc)) :=
  (permQueryUnion s lk (perm3 v1 v2 v3)).map (fun r => some r.dedup)

/-- The fuzzy fallback, standard side: the wildcard-wrapped text in
every position of the (name, section, subsection, link) tuple. -/
def fuzzyStdUnion (s : DBState) :
    List (Option String × Option String × Option String × Option String) →
      Except PyErr (List ResultDoc)
  | [] => .ok []
  | c :: rest => do
      let stands ← get_standards s
        ⟨c.1.getD "", c.2.1.getD "", c.2.2.1.getD "", c.2.2.2.getD "", "", true, []⟩
      let r ← fuzzyStdUnion s rest
      match stands with
      | some l => .ok (l ++ r)
      | none => .ok r

/-- The fuzzy fallback, CRE side: the wildcard-wrapped text in every
position of the (name, external_id, description) tuple. -/
def fuzzyCreUnion (s : DBState) :
    List (Option String × Option String × Option String) →
      Except PyErr (List ResultDoc)
  | [] => .ok []
  | c :: rest => do
      let cs ← get_CREs s ⟨c.2.1.getD "", c.1.getD "", c.2.2.getD "", true, []⟩
      let r ← fuzzyCreUnion s rest
      match cs with
      | some l => .ok (l ++ r)
      | none => .ok r

/-- The fuzzy fallback of text_search. -/
def fuzzyBranch (s : DBState) (text : String) :
    Except PyErr (Option (List ResultDoc)) := do
  let p := "%" ++ text ++ "%"
  let sres ← fuzzyStdUnion s (perm4 (some p) none none none)
  let cres ← fuzzyCreUnion s (perm3 (some p) none none)
  .ok (some ((sres ++ cres).dedup))

/-- Standard_collection.text_search: the four structured patterns in
priority order, then the fuzzy fallback. -/
def text_search (s : DBState) (text : String) :
    Except PyErr (Option (List ResultDoc)) :=
  match searchAux creIdAt text.data with
  | some i => get_CREs s (creIdQuery (String.mk i))
  | none =>
      match searchAux nakedIdAt text.data with
      | some i => get_CREs s (creIdQuery (String.mk i))
      | none =>
          match searchAux creNameAt text.data with
          | some nm => get_CREs s (creNameQuery (String.mk nm))
          | none =>
              match searchAux standardAt text.data with
              | some r =>
                  standardBranch s ((r.1.map String.mk).getD "")
                    (r.2.1.map String.mk) (r.2.2.1.map String.mk)
                    (r.2.2.2.map String.mk)
              | none => fuzzyBranch s text

/-! ## Derived states, output shapes and witness fixtures -/

instance {ε α : Type _} [DecidableEq ε] [DecidableEq α] : DecidableEq (Except ε α) :=
  fun x y =>
    match x, y with
    | .error e, .error f =>
        if h : e = f then isTrue (by rw [h])
        else isFalse (by intro hc; injection hc with h2; exact h h2)
    | .error _, .ok _ => isFalse (fun hc => Except.noConfusion hc)
    | .ok _, .error _ => isFalse (fun hc => Except.noConfusion hc)
    | .ok a, .ok b =>
        if h : a = b then isTrue (by rw [h])
        else isFalse (by intro hc; injection hc with h2; exact h h2)

/-- The state after retyping an existing internal-link row in place. -/
def retypedIl (s : DBState) (gid mid : Nat) (t : LinkTypes) : DBState :=
  { s with internalLinks :=
      updateFirst (ilMatch gid mid) (fun x => { x with type := t }) s.internalLinks }

/-- The state after retyping an existing external-link row in place. -/
def retypedL (s : DBState) (cid sid : Nat) (t : LinkTypes) : DBState :=
  { s with links :=
      updateFirst (lMatch cid sid) (fun x => { x with type := t }) s.links }

/-- The acyclic three-chain state used to witness the cycle rejection:
edges CRE:1 -> CRE:2 -> CRE:3 are stored; linking group 3 to member 1
would close the cycle. -/
def chainState : DBState :=
  ⟨[⟨1, "", "", "a", ""⟩, ⟨2, "", "", "b", ""⟩, ⟨3, "", "", "c", ""⟩], [],
   [⟨LinkTypes.Contains, 1, 2⟩, ⟨LinkTypes.Contains, 2, 3⟩], [],
   ⟨[GNode.cre 1, GNode.cre 2, GNode.cre 3],
    [(GNode.cre 1, GNode.cre 2), (GNode.cre 2, GNode.cre 3)]⟩⟩

/-- The state used to witness external cycle rejection: the mirror
already holds a Standard:5 -> CRE:1 edge, so CRE:1 -> Standard:5 would
close a cycle. -/
def stdBackEdgeState : DBState :=
  ⟨[⟨1, "", "", "a", ""⟩], [⟨5, "S", "s1", "", "", "", ""⟩], [], [],
   ⟨[GNode.std 5, GNode.cre 1], [(GNode.std 5, GNode.cre 1)]⟩⟩

/-- The upsert sequence used to witness the invariant: a chain-building
link and a cycle-closing attempt (rejected). -/
def opsW : List Op :=
  [.internal ⟨some 3, none, "c", ""⟩ ⟨some 1, none, "a", ""⟩ LinkTypes.Contains,
   .external ⟨some 1, none, "a", ""⟩ ⟨some 5, "S", "s1", "", ""⟩ LinkTypes.Same,
   .internal ⟨some 1, none, "a", ""⟩ ⟨some 3, none, "c", ""⟩ LinkTypes.Contains]

/-- The two-CRE state used to witness the display rule: G(1) contains
M(2). -/
def gmState : DBState :=
  ⟨[⟨1, "", "", "G", ""⟩, ⟨2, "", "", "M", ""⟩], [],
   [⟨LinkTypes.Contains, 1, 2⟩], [],
   ⟨[GNode.cre 1, GNode.cre 2], [(GNode.cre 1, GNode.cre 2)]⟩⟩

/-- The gap-analysis witness state: standards A(1) and C(2) are both
linked from CRE 10, B(3) is an isolated node. -/
def gapState : DBState :=
  ⟨[⟨10, "", "", "cre10", ""⟩],
   [⟨1, "A", "s", "", "", "", ""⟩, ⟨2, "C", "s", "", "", "", ""⟩,
    ⟨3, "B", "s", "", "", "", ""⟩],
   [], [⟨LinkTypes.Same, 10, 1⟩, ⟨LinkTypes.Same, 10, 2⟩],
   ⟨[GNode.cre 10, GNode.std 1, GNode.std 2, GNode.std 3],
    [(GNode.cre 10, GNode.std 1), (GNode.cre 10, GNode.std 2)]⟩⟩

/-- The documents gap_analysis produces on gapState for [A, B, C]. -/
def gapDocs : List ResultDoc :=
  [⟨BaseDoc.stdD "A" "s" "" "" "" [],
    [(LinkTypes.LinkedTo, BaseDoc.stdD "C" "s" "" "" "" [])]⟩,
   ⟨BaseDoc.stdD "B" "s" "" "" "" [], []⟩,
   ⟨BaseDoc.stdD "C" "s" "" "" "" [],
    [(LinkTypes.LinkedTo, BaseDoc.stdD "A" "s" "" "" "" [])]⟩]

/-- Modelled from the claim's reading of the spec: the deduplicated
union over every permutation of the three separate trailing tokens of
the query assigned to (name, section, subsection).  Kept for comparison
with text_search, which captures the last two tokens as a single
value. -/
def claimedStandardSearch (s : DBState) (t1 t2 t3 : String) :
    Except PyErr (Option (List ResultDoc)) :=
  (permQueryUnion s "" (perm3 (some t1) (some t2) (some t3))).map
    (fun r => some r.dedup)

/-- The one-standard store on which the code's Standard branch and the
claimed three-token union differ. -/
def owaspState : DBState :=
  ⟨[], [⟨1, "OWASP", "V1", "1.1", "", "", ""⟩], [], [], ⟨[], []⟩⟩

/-- The state add_cre produces when it updates a found row in place. -/
def creUpdateOut (s : DBState) (cre : CreDef) : DBState :=
  { s with cres := updateFirst (creUpsertPred cre) (creUpsertUpd cre) s.cres }

/-- The state add_cre produces when it inserts a fresh row. -/
def creInsertOut (s : DBState) (cre : CreDef) : DBState :=
  { s with cres := s.cres ++ [freshCreRow s cre],
           graph := s.graph.addNode (.cre (freshCreRow s cre).id) }

/-- The store holding one id-less CRE row named x. -/
def emptyIdState : DBState := ⟨[⟨1, "", "d", "x", ""⟩], [], [], [], ⟨[], []⟩⟩

/-- The upsert document supplying a non-empty id for the name x. -/
def newIdDef : CreDef := ⟨"123-456", "x", "newdesc", []⟩

/-- The state add_cre actually produces on that input: the old row is
untouched and a second row is inserted. -/
def emptyIdOutState : DBState :=
  ⟨[⟨1, "", "d", "x", ""⟩, ⟨2, "123-456", "newdesc", "x", ""⟩], [], [], [],
   ⟨[GNode.cre 2], []⟩⟩

/-! ## Graph reachability and cycle-detector correctness -/

theorem mem_stepF {g : Graph} {s : Finset GNode} {x : GNode} :
    x ∈ stepF g s ↔ x ∈ s ∨ ∃ e ∈ g.edges, e.1 ∈ s ∧ e.2 = x := by
  simp only [stepF, Finset.mem_union, List.mem_toFinset, List.mem_map,
    List.mem_filter, decide_eq_true_eq]
  constructor
  · rintro (h | ⟨e, ⟨he, hs⟩, hx⟩)
    · exact Or.inl h
    · exact Or.inr ⟨e, he, hs, hx⟩
  · rintro (h | ⟨e, he, hs, hx⟩)
    · exact Or.inl h
    · exact Or.inr ⟨e, ⟨he, hs⟩, hx⟩

theorem subset_stepF (g : Graph) (s : Finset GNode) : s ⊆ stepF g s := by
  intro x hx
  exact mem_stepF.mpr (Or.inl hx)

theorem stepF_subset_union (g : Graph) (s : Finset GNode) :
    stepF g s ⊆ s ∪ (g.edges.map Prod.snd).toFinset := by
  intro x hx
  rcases mem_stepF.mp hx with h | ⟨e, he, _, hx⟩
  · exact Finset.mem_union_left _ h
  · refine Finset.mem_union_right _ ?_
    simp only [List.mem_toFinset, List.mem_map]
    exact ⟨e, he, hx⟩

theorem iterate_stepF_subset (g : Graph) (a : GNode) :
    ∀ n : Nat, (stepF g)^[n] {a} ⊆ insert a (g.edges.map Prod.snd).toFinset := by
  intro n
  induction n with
  | zero =>
      intro x hx
      simp only [Function.iterate_zero, id_eq, Finset.mem_singleton] at hx
      simp [hx]
  | succ n ih =>
      rw [Function.iterate_succ_apply']
      intro x hx
      rcases Finset.mem_union.mp (stepF_subset_union g _ hx) with h | h
      · exact ih h
      · exact Finset.mem_insert_of_mem h

theorem self_mem_iterate_stepF (g : Graph) (a : GNode) :
    ∀ n : Nat, a ∈ (stepF g)^[n] {a} := by
  intro n
  induction n with
  | zero => simp
  | succ n ih =>
      rw [Function.iterate_succ_apply']
      exact subset_stepF g _ ih

theorem card_iterate_stepF (g : Graph) (a : GNode) :
    ∀ k : Nat, (∀ j < k, (stepF g)^[j + 1] {a} ≠ (stepF g)^[j] {a}) →
      k + 1 ≤ ((stepF g)^[k] {a}).card := by
  intro k
  induction k with
  | zero => simp
  | succ k ih =>
      intro h
      have hk : k + 1 ≤ ((stepF g)^[k] {a}).card :=
        ih (fun j hj => h j (Nat.lt_succ_of_lt hj))
      have hne : (stepF g)^[k + 1] {a} ≠ (stepF g)^[k] {a} :=
        h k (Nat.lt_succ_self k)
      have hsub : (stepF g)^[k] {a} ⊆ (stepF g)^[k + 1] {a} := by
        rw [Function.iterate_succ_apply']
        exact subset_stepF g _
      have hlt : ((stepF g)^[k] {a}).card < ((stepF g)^[k + 1] {a}).card :=
        Finset.card_lt_card (Finset.ssubset_iff_subset_ne.mpr ⟨hsub, fun he => hne he.symm⟩)
      omega

theorem exists_stepF_fix (g : Graph) (a : GNode) :
    ∃ k ≤ g.edges.length, (stepF g)^[k + 1] {a} = (stepF g)^[k] {a} := by
  by_contra hcon
  push_neg at hcon
  have hall : ∀ j < g.edges.length + 1, (stepF g)^[j + 1] {a} ≠ (stepF g)^[j] {a} := by
    intro j hj
    exact hcon j (Nat.lt_succ_iff.mp hj)
  have hcard := card_iterate_stepF g a (g.edges.length + 1) hall
  have hb : ((stepF g)^[g.edges.length + 1] {a}).card ≤ g.edges.length + 1 := by
    calc ((stepF g)^[g.edges.length + 1] {a}).card
        ≤ (insert a (g.edges.map Prod.snd).toFinset).card :=
          Finset.card_le_card (iterate_stepF_subset g a _)
      _ ≤ (g.edges.map Prod.snd).toFinset.card + 1 := Finset.card_insert_le _ _
      _ ≤ (g.edges.map Prod.snd).length + 1 :=
          Nat.add_le_add_right (List.toFinset_card_le _) 1
      _ = g.edges.length + 1 := by rw [List.length_map]
  omega

theorem reachSet_fixed (g : Graph) (a : GNode) :
    stepF g (reachSet g a) = reachSet g a := by
  obtain ⟨k, hk, hfix⟩ := exists_stepF_fix g a
  rw [Function.iterate_succ_apply'] at hfix
  have hstable : ∀ m : Nat, (stepF g)^[m] ((stepF g)^[k] {a}) = (stepF g)^[k] {a} :=
    fun m => Function.iterate_fixed hfix m
  have hreach : reachSet g a = (stepF g)^[k] {a} := by
    have : g.edges.length + 1 = (g.edges.length + 1 - k) + k := by omega
    rw [reachSet, this, Function.iterate_add_apply]
    exact hstable _
  rw [hreach]
  exact hfix

theorem mem_reachSet_of_rtg {g : Graph} {a b : GNode}
    (h : Relation.ReflTransGen (EdgeRel g) a b) : b ∈ reachSet g a := by
  induction h with
  | refl => exact self_mem_iterate_stepF g a _
  | tail _ hedge ih =>
      rename_i c d _
      have : d ∈ stepF g (reachSet g a) :=
        mem_stepF.mpr (Or.inr ⟨(c, d), hedge, ih, rfl⟩)
      rwa [reachSet_fixed] at this

theorem rtg_of_mem_iterate {g : Graph} {a : GNode} :
    ∀ (n : Nat) (x : GNode), x ∈ (stepF g)^[n] {a} →
      Relation.ReflTransGen (EdgeRel g) a x := by
  intro n
  induction n with
  | zero =>
      intro x hx
      simp only [Function.iterate_zero, id_eq, Finset.mem_singleton] at hx
      rw [hx]
  | succ n ih =>
      intro x hx
      rw [Function.iterate_succ_apply'] at hx
      rcases mem_stepF.mp hx with h | ⟨e, he, hs, hx⟩
      · exact ih x h
      · exact Relation.ReflTransGen.tail (ih e.1 hs) (hx ▸ he)

theorem reachableB_iff {g : Graph} {a b : GNode} :
    reachableB g a b = true ↔ Relation.ReflTransGen (EdgeRel g) a b := by
  unfold reachableB
  rw [decide_eq_true_eq]
  constructor
  · exact rtg_of_mem_iterate _ b
  · exact mem_reachSet_of_rtg

/-- The executable cycle detector agrees with propositional acyclicity. -/
theorem hasCycle_eq_false_iff (g : Graph) : hasCycle g = false ↔ Acyclic g := by
  unfold hasCycle Acyclic
  rw [List.any_eq_false]
  constructor
  · intro h n hn
    obtain ⟨c, hc, hrt⟩ := Relation.TransGen.head'_iff.mp hn
    have := h (n, c) hc
    simp only [reachableB_iff] at this
    exact this hrt
  · intro h e he hre
    simp only [reachableB_iff] at hre
    exact h e.1 (Relation.TransGen.head' (a := e.1) (b := e.2) he hre)

theorem edgeRel_undirected_iff {g : Graph} {a b : GNode} :
    EdgeRel g.undirected a b ↔ UEdge g a b := by
  unfold EdgeRel Graph.undirected UEdge
  simp only [List.mem_append, List.mem_map]
  constructor
  · rintro (h | ⟨e, he, hx⟩)
    · exact Or.inl h
    · refine Or.inr ?_
      have h1 : e.2 = a := congrArg Prod.fst hx
      have h2 : e.1 = b := congrArg Prod.snd hx
      rw [← h1, ← h2]
      exact he
  · rintro (h | h)
    · exact Or.inl h
    · exact Or.inr ⟨(b, a), h, rfl⟩

theorem mapE_ok_mem {f : α → Except ε β} :
    ∀ {l : List α} {r : List β}, mapE f l = .ok r →
      ∀ x ∈ l, ∃ y, f x = .ok y ∧ y ∈ r := by
  intro l
  induction l with
  | nil => intro r _ x hx; cases hx
  | cons a as ih =>
      intro r hr x hx
      simp only [mapE, bind, Except.bind] at hr
      cases ha : f a with
      | error e => rw [ha] at hr; cases hr
      | ok y =>
          rw [ha] at hr
          cases hrest : mapE f as with
          | error e => rw [hrest] at hr; cases hr
          | ok ys =>
              rw [hrest] at hr
              have hry : r = y :: ys := by cases hr; rfl
              subst hry
              rcases List.mem_cons.mp hx with hx1 | hx1
              · subst hx1
                exact ⟨y, ha, List.mem_cons_self _ _⟩
              · obtain ⟨z, hz, hmem⟩ := ih hrest x hx1
                exact ⟨z, hz, List.mem_cons_of_mem _ hmem⟩

theorem updateFirst_map_eq (p : α → Bool) (f : α → α) (h : α → β)
    (hpres : ∀ x, h (f x) = h x) :
    ∀ l : List α, (updateFirst p f l).map h = l.map h := by
  intro l
  induction l with
  | nil => rfl
  | cons x xs ih =>
      unfold updateFirst
      by_cases hp : p x
      · simp [hp, hpres]
      · simp [hp, ih]

/-! ## C8 -/

/-- C8: a standard lookup issued with every filter field (name, section,
subsection, link, version) empty is rejected immediately with the
invalid-query ValueError, before any store round-trip; a CRE lookup with
external_id, name and description all empty performs no store query and
returns the absent result. -/
theorem empty_query_rejected :
    ∀ (s : DBState) (loose : Bool) (io : List String),
      get_standards_query s ⟨"", "", "", "", "", loose, io⟩ = .error .valueErr ∧
      get_standards s ⟨"", "", "", "", "", loose, io⟩ = .error .valueErr ∧
      get_CREs s ⟨"", "", "", loose, io⟩ = .ok none := by
  intro s loose io
  exact ⟨rfl, rfl, rfl⟩

/-! ## C9 -/

/-- C9: when either endpoint of an internal-link upsert cannot be
resolved to an existing row (an id is taken as given; otherwise the
lookup is by (name, external_id) or (name, description)), the operation
hits the fatal-logged NotFoundError condition and aborts: no link row is
written and the mirror is untouched, the collection is returned exactly
unchanged. -/
theorem internal_link_not_found_no_write :
    ∀ (s : DBState) (group cre : CreArg) (t : LinkTypes),
      resolve_cre s group = none ∨ resolve_cre s cre = none →
      add_internal_link s group cre t = .ok s := by
  intro s group cre t h
  cases hc : resolve_cre s cre with
  | none =>
      cases hg : resolve_cre s group with
      | none => simp [add_internal_link, hc, hg]
      | some g => simp [add_internal_link, hc, hg]
  | some m =>
      cases hg : resolve_cre s group with
      | none => simp [add_internal_link, hc, hg]
      | some g =>
          rcases h with h | h
          · rw [hg] at h; cases h
          · rw [hc] at h; cases h

/-- C9 witness: a concrete unresolvable member aborts the upsert with
the collection unchanged. -/
theorem internal_link_not_found_no_write_witness :
    add_internal_link ⟨[], [], [], [], ⟨[], []⟩⟩ ⟨none, none, "G", ""⟩
        ⟨none, none, "M", ""⟩ LinkTypes.Contains =
      .ok ⟨[], [], [], [], ⟨[], []⟩⟩ :=
  internal_link_not_found_no_write ⟨[], [], [], [], ⟨[], []⟩⟩ ⟨none, none, "G", ""⟩
    ⟨none, none, "M", ""⟩ LinkTypes.Contains (Or.inl (by decide))

/-! ## C3 -/

/-- C3: when a link row already exists between the two endpoints (for
internal links an edge in either orientation counts), the upsert only
rewrites that row's type field and returns: the store keeps exactly the
same edge pairs, the mirror graph and every other table are untouched,
and the update is not gated by any cycle check (no acyclicity hypothesis
is needed). -/
theorem retype_existing_link :
    (∀ (s : DBState) (group cre : CreArg) (t : LinkTypes) (g m : CreRow) (r : IlRow),
      resolve_cre s cre = some m → resolve_cre s group = some g →
      s.internalLinks.find? (ilMatch g.id m.id) = some r →
      add_internal_link s group cre t = .ok (retypedIl s g.id m.id t) ∧
      (retypedIl s g.id m.id t).graph = s.graph ∧
      (retypedIl s g.id m.id t).links = s.links ∧
      (retypedIl s g.id m.id t).cres = s.cres ∧
      (retypedIl s g.id m.id t).internalLinks.map (fun x => (x.group, x.cre)) =
        s.internalLinks.map (fun x => (x.group, x.cre))) ∧
    (∀ (s : DBState) (cre : CreArg) (std : StdArg) (t : LinkTypes) (c : CreRow)
        (d : StdRow) (r : LRow),
      resolve_cre_by_name s cre = some c → resolve_std s std = some d →
      s.links.find? (lMatch c.id d.id) = some r →
      add_link s cre std t = .ok (retypedL s c.id d.id t) ∧
      (retypedL s c.id d.id t).graph = s.graph ∧
      (retypedL s c.id d.id t).internalLinks = s.internalLinks ∧
      (retypedL s c.id d.id t).cres = s.cres ∧
      (retypedL s c.id d.id t).links.map (fun x => (x.cre, x.standard)) =
        s.links.map (fun x => (x.cre, x.standard))) := by
  constructor
  · intro s group cre t g m r hm hg hf
    refine ⟨?_, rfl, rfl, rfl, ?_⟩
    · simp [add_internal_link, hm, hg, hf, retypedIl]
    · exact updateFirst_map_eq (ilMatch g.id m.id) (fun x => { x with type := t })
        (fun x => (x.group, x.cre)) (fun x => rfl) s.internalLinks
  · intro s cre std t c d r hc hd hf
    refine ⟨?_, rfl, rfl, rfl, ?_⟩
    · simp [add_link, hc, hd, hf, retypedL]
    · exact updateFirst_map_eq (lMatch c.id d.id) (fun x => { x with type := t })
        (fun x => (x.cre, x.standard)) (fun x => rfl) s.links

/-- C3 witness: concrete retypings of an existing internal link (stored
in the opposite orientation) and of an existing external link. -/
theorem retype_existing_link_witness :
    add_internal_link ⟨[⟨1, "", "", "a", ""⟩, ⟨2, "", "", "b", ""⟩], [],
        [⟨LinkTypes.Same, 1, 2⟩], [],
        ⟨[GNode.cre 1, GNode.cre 2], [(GNode.cre 1, GNode.cre 2)]⟩⟩
      ⟨some 2, none, "b", ""⟩ ⟨some 1, none, "a", ""⟩ LinkTypes.Related =
      .ok ⟨[⟨1, "", "", "a", ""⟩, ⟨2, "", "", "b", ""⟩], [],
        [⟨LinkTypes.Related, 1, 2⟩], [],
        ⟨[GNode.cre 1, GNode.cre 2], [(GNode.cre 1, GNode.cre 2)]⟩⟩ ∧
    add_link ⟨[⟨1, "", "", "a", ""⟩], [⟨5, "S", "s1", "", "", "", ""⟩], [],
        [⟨LinkTypes.Same, 1, 5⟩],
        ⟨[GNode.cre 1, GNode.std 5], [(GNode.cre 1, GNode.std 5)]⟩⟩
      ⟨some 1, none, "a", ""⟩ ⟨some 5, "S", "s1", "", ""⟩ LinkTypes.Related =
      .ok ⟨[⟨1, "", "", "a", ""⟩], [⟨5, "S", "s1", "", "", "", ""⟩], [],
        [⟨LinkTypes.Related, 1, 5⟩],
        ⟨[GNode.cre 1, GNode.std 5], [(GNode.cre 1, GNode.std 5)]⟩⟩ := by
  constructor
  · exact ((retype_existing_link.1 _ ⟨some 2, none, "b", ""⟩ ⟨some 1, none, "a", ""⟩
      LinkTypes.Related ⟨2, "", "", "b", ""⟩ ⟨1, "", "", "a", ""⟩
      ⟨LinkTypes.Same, 1, 2⟩ (by decide) (by decide) (by decide)).1).trans (by decide)
  · exact ((retype_existing_link.2 _ ⟨some 1, none, "a", ""⟩ ⟨some 5, "S", "s1", "", ""⟩
      LinkTypes.Related ⟨1, "", "", "a", ""⟩ ⟨5, "S", "s1", "", "", "", ""⟩
      ⟨LinkTypes.Same, 1, 5⟩ (by decide) (by decide) (by decide)).1).trans (by decide)

/-! ## C2 -/

/-- C2: a link upsert (internal or external) whose candidate edge is new
(no row between the endpoints) and whose trial insertion into the mirror
closes a cycle is rejected: the persisted link rows and the mirror are
returned exactly as they were, with the same edge set and node set and
no row written. -/
theorem cycle_rejection_state_unchanged :
    (∀ (s : DBState) (group cre : CreArg) (t : LinkTypes) (g m : CreRow),
      resolve_cre s cre = some m → resolve_cre s group = some g →
      s.internalLinks.find? (ilMatch g.id m.id) = none →
      hasCycle s.graph = false →
      hasCycle (s.graph.addEdge (.cre g.id) (.cre m.id)) = true →
      add_internal_link s group cre t = .ok s) ∧
    (∀ (s : DBState) (cre : CreArg) (std : StdArg) (t : LinkTypes) (c : CreRow)
        (d : StdRow),
      resolve_cre_by_name s cre = some c → resolve_std s std = some d →
      s.links.find? (lMatch c.id d.id) = none →
      hasCycle s.graph = false →
      hasCycle (s.graph.addEdge (.cre c.id) (.std d.id)) = true →
      add_link s cre std t = .ok s) := by
  constructor
  · intro s group cre t g m hm hg hf hlive htrial
    simp [add_internal_link, hm, hg, hf, introduces_cycle, hlive, htrial,
      bind, Except.bind]
  · intro s cre std t c d hc hd hf hlive htrial
    simp [add_link, hc, hd, hf, introduces_cycle, hlive, htrial,
      bind, Except.bind]

/-- C2 witness: both rejections at concrete cycle-closing candidates
leave the concrete states untouched. -/
theorem cycle_rejection_state_unchanged_witness :
    add_internal_link chainState ⟨some 3, none, "c", ""⟩ ⟨some 1, none, "a", ""⟩
        LinkTypes.Contains = .ok chainState ∧
    add_link stdBackEdgeState ⟨some 1, none, "a", ""⟩ ⟨some 5, "S", "s1", "", ""⟩
        LinkTypes.Same = .ok stdBackEdgeState :=
  ⟨cycle_rejection_state_unchanged.1 chainState ⟨some 3, none, "c", ""⟩
      ⟨some 1, none, "a", ""⟩ LinkTypes.Contains ⟨3, "", "", "c", ""⟩
      ⟨1, "", "", "a", ""⟩ (by decide) (by decide) (by decide) (by decide) (by decide),
   cycle_rejection_state_unchanged.2 stdBackEdgeState ⟨some 1, none, "a", ""⟩
      ⟨some 5, "S", "s1", "", ""⟩ LinkTypes.Same ⟨1, "", "", "a", ""⟩
      ⟨5, "S", "s1", "", "", "", ""⟩ (by decide) (by decide) (by decide) (by decide)
      (by decide)⟩

/-! ## C1 -/

theorem add_internal_link_keeps_no_cycle (s : DBState) (group cre : CreArg)
    (t : LinkTypes) (h : hasCycle s.graph = false) :
    ∀ s1, add_internal_link s group cre t = .ok s1 → hasCycle s1.graph = false := by
  intro s1 hok
  cases hc : resolve_cre s cre with
  | none =>
      cases hg : resolve_cre s group with
      | none => simp [add_internal_link, hc, hg] at hok; rw [← hok]; exact h
      | some g => simp [add_internal_link, hc, hg] at hok; rw [← hok]; exact h
  | some m =>
      cases hg : resolve_cre s group with
      | none => simp [add_internal_link, hc, hg] at hok; rw [← hok]; exact h
      | some g =>
          cases hf : s.internalLinks.find? (ilMatch g.id m.id) with
          | some r =>
              simp [add_internal_link, hc, hg, hf] at hok
              rw [← hok]
              exact h
          | none =>
              cases htr : hasCycle (s.graph.addEdge (.cre g.id) (.cre m.id)) with
              | true =>
                  simp [add_internal_link, hc, hg, hf, introduces_cycle, h, htr,
                    bind, Except.bind] at hok
                  rw [← hok]
                  exact h
              | false =>
                  simp [add_internal_link, hc, hg, hf, introduces_cycle, h, htr,
                    bind, Except.bind] at hok
                  rw [← hok]
                  exact htr

theorem add_link_keeps_no_cycle (s : DBState) (cre : CreArg) (std : StdArg)
    (t : LinkTypes) (h : hasCycle s.graph = false) :
    ∀ s1, add_link s cre std t = .ok s1 → hasCycle s1.graph = false := by
  intro s1 hok
  cases hc : resolve_cre_by_name s cre with
  | none =>
      cases hd : resolve_std s std with
      | none => simp [add_link, hc, hd] at hok
      | some d => simp [add_link, hc, hd] at hok
  | some c =>
      cases hd : resolve_std s std with
      | none => simp [add_link, hc, hd] at hok
      | some d =>
          cases hf : s.links.find? (lMatch c.id d.id) with
          | some r =>
              simp [add_link, hc, hd, hf] at hok
              rw [← hok]
              exact h
          | none =>
              cases htr : hasCycle (s.graph.addEdge (.cre c.id) (.std d.id)) with
              | true =>
                  simp [add_link, hc, hd, hf, introduces_cycle, h, htr,
                    bind, Except.bind] at hok
                  rw [← hok]
                  exact h
              | false =>
                  simp [add_link, hc, hd, hf, introduces_cycle, h, htr,
                    bind, Except.bind] at hok
                  rw [← hok]
                  exact htr

theorem hasCycle_applyOp (s : DBState) (op : Op)
    (h : hasCycle s.graph = false) : hasCycle (applyOp s op).graph = false := by
  cases op with
  | internal g c t =>
      simp only [applyOp]
      cases hr : add_internal_link s g c t with
      | ok s1 => exact add_internal_link_keeps_no_cycle s g c t h s1 hr
      | error e => exact h
  | external c d t =>
      simp only [applyOp]
      cases hr : add_link s c d t with
      | ok s1 => exact add_link_keeps_no_cycle s c d t h s1 hr
      | error e => exact h

theorem hasCycle_applyOps :
    ∀ (ops : List Op) (s : DBState), hasCycle s.graph = false →
      hasCycle (applyOps s ops).graph = false := by
  intro ops
  induction ops with
  | nil => intro s h; exact h
  | cons op rest ih =>
      intro s h
      have : applyOps s (op :: rest) = applyOps (applyOp s op) rest := rfl
      rw [this]
      exact ih _ (hasCycle_applyOp s op h)

/-- C1: starting from an acyclic mirror, the directed graph formed by
all InternalLink and ExternalLink edges over the combined CRE/Standard
node space stays acyclic after every sequence of internal-link and
external-link upserts. -/
theorem mirror_stays_acyclic (s : DBState) (ops : List Op)
    (h : Acyclic s.graph) : Acyclic (applyOps s ops).graph :=
  (hasCycle_eq_false_iff _).mp
    (hasCycle_applyOps ops s ((hasCycle_eq_false_iff s.graph).mpr h))

/-- C1 witness: the invariant instantiated on a concrete acyclic state
and a concrete upsert sequence containing a rejected cycle attempt. -/
theorem mirror_stays_acyclic_witness : Acyclic (applyOps chainState opsW).graph :=
  mirror_stays_acyclic chainState opsW
    ((hasCycle_eq_false_iff chainState.graph).mp (by decide))

/-! ## C4 -/

theorem creDocFor_links {s : DBState} {io : List String} {row : CreRow}
    {doc : ResultDoc} (h : creDocFor s io row = .ok doc) :
    ∃ ext ints,
      creExtEntries s io (s.links.filter (fun l => decide (l.cre = row.id))) = .ok ext ∧
      mapE (ilEntry s row.id)
        (s.internalLinks.filter
          (fun il => decide (il.cre = row.id) || decide (il.group = row.id))) = .ok ints ∧
      doc = ⟨creBase row, ext ++ ints⟩ := by
  unfold creDocFor at h
  simp only [bind, Except.bind] at h
  cases hext : creExtEntries s io (s.links.filter (fun l => decide (l.cre = row.id))) with
  | error e => rw [hext] at h; cases h
  | ok ext =>
      rw [hext] at h
      cases hint : mapE (ilEntry s row.id)
          (s.internalLinks.filter
            (fun il => decide (il.cre = row.id) || decide (il.group = row.id))) with
      | error e => rw [hint] at h; cases h
      | ok ints =>
          rw [hint] at h
          refine ⟨ext, ints, rfl, rfl, ?_⟩
          cases h
          rfl

/-- C4: for a stored internal link group G -> member M, the
link-retrieval path of get_CREs (the ilEntry display rule applied to
every internal-link row of the matched CRE inside creDocFor) reports on
M's document a link to G whose displayed type is PartOf exactly when the
stored type is Contains and the stored type otherwise, and on G's
document a link to M carrying the stored type unchanged (Contains
included). -/
theorem internal_link_display_rule :
    ∀ (s : DBState) (il : IlRow) (g m : CreRow),
      il ∈ s.internalLinks → il.group = g.id → il.cre = m.id → g.id ≠ m.id →
      lookupCre s g.id = some g → lookupCre s m.id = some m →
      ilEntry s m.id il =
        .ok (if il.type = LinkTypes.Contains then LinkTypes.PartOf else il.type,
          creBase g) ∧
      ilEntry s g.id il = .ok (il.type, creBase m) ∧
      (∀ doc, creDocFor s [] m = .ok doc →
        (if il.type = LinkTypes.Contains then LinkTypes.PartOf else il.type,
          creBase g) ∈ doc.links) ∧
      (∀ doc, creDocFor s [] g = .ok doc → (il.type, creBase m) ∈ doc.links) := by
  intro s il g m hmem hgrp hcre hne hlg hlm
  have hmEntry : ilEntry s m.id il =
      .ok (if il.type = LinkTypes.Contains then LinkTypes.PartOf else il.type,
        creBase g) := by
    unfold ilEntry
    rw [if_pos hcre, hgrp, hlg]
  have hgEntry : ilEntry s g.id il = .ok (il.type, creBase m) := by
    unfold ilEntry
    have hno : ¬ il.cre = g.id := by rw [hcre]; exact fun hcon => hne hcon.symm
    rw [if_neg hno, hcre, hlm]
  refine ⟨hmEntry, hgEntry, ?_, ?_⟩
  · intro doc hdoc
    obtain ⟨ext, ints, _, hint, hdeq⟩ := creDocFor_links hdoc
    have hfil : il ∈ s.internalLinks.filter
        (fun x => decide (x.cre = m.id) || decide (x.group = m.id)) := by
      rw [List.mem_filter]
      exact ⟨hmem, by rw [hcre]; simp⟩
    obtain ⟨y, hy, hymem⟩ := mapE_ok_mem hint il hfil
    rw [hmEntry] at hy
    have hyv := hy
    injection hyv with hyv2
    rw [hdeq]
    exact List.mem_append_right ext (hyv2 ▸ hymem)
  · intro doc hdoc
    obtain ⟨ext, ints, _, hint, hdeq⟩ := creDocFor_links hdoc
    have hfil : il ∈ s.internalLinks.filter
        (fun x => decide (x.cre = g.id) || decide (x.group = g.id)) := by
      rw [List.mem_filter]
      exact ⟨hmem, by rw [hgrp]; simp⟩
    obtain ⟨y, hy, hymem⟩ := mapE_ok_mem hint il hfil
    rw [hgEntry] at hy
    have hyv := hy
    injection hyv with hyv2
    rw [hdeq]
    exact List.mem_append_right ext (hyv2 ▸ hymem)

/-- C4 witness: the display rule instantiated on the concrete stored
link G(1) --Contains--> M(2). -/
theorem internal_link_display_rule_witness :
    ilEntry gmState 2 ⟨LinkTypes.Contains, 1, 2⟩ =
      .ok (if (⟨LinkTypes.Contains, 1, 2⟩ : IlRow).type = LinkTypes.Contains
        then LinkTypes.PartOf
        else (⟨LinkTypes.Contains, 1, 2⟩ : IlRow).type, creBase ⟨1, "", "", "G", ""⟩) ∧
    ilEntry gmState 1 ⟨LinkTypes.Contains, 1, 2⟩ =
      .ok (LinkTypes.Contains, creBase ⟨2, "", "", "M", ""⟩) ∧
    (∀ doc, creDocFor gmState [] ⟨2, "", "", "M", ""⟩ = .ok doc →
      (if (⟨LinkTypes.Contains, 1, 2⟩ : IlRow).type = LinkTypes.Contains
        then LinkTypes.PartOf
        else (⟨LinkTypes.Contains, 1, 2⟩ : IlRow).type,
        creBase ⟨1, "", "", "G", ""⟩) ∈ doc.links) ∧
    (∀ doc, creDocFor gmState [] ⟨1, "", "", "G", ""⟩ = .ok doc →
      (LinkTypes.Contains, creBase ⟨2, "", "", "M", ""⟩) ∈ doc.links) :=
  internal_link_display_rule gmState ⟨LinkTypes.Contains, 1, 2⟩
    ⟨1, "", "", "G", ""⟩ ⟨2, "", "", "M", ""⟩ (by decide) (by decide) (by decide)
    (by decide) (by decide) (by decide)

/-! ## C5 -/

theorem gapLinksFor_mem (s : DBState) (st : StdRow) :
    ∀ (os : List StdRow) (l : List (LinkTypes × BaseDoc)),
      gapLinksFor s st os = .ok l →
      ∀ o ∈ os, o.id ≠ st.id →
        find_path_between_standards s st.id o.id = .ok true →
        (LinkTypes.LinkedTo, stdBase o) ∈ l := by
  intro os
  induction os with
  | nil => intro l _ o ho; cases ho
  | cons o1 os ih =>
      intro l hl o ho hne hpath
      unfold gapLinksFor at hl
      by_cases heq : st.id = o1.id
      · rw [if_pos heq] at hl
        rcases List.mem_cons.mp ho with rfl | ho2
        · exact absurd heq.symm hne
        · exact ih l hl o ho2 hne hpath
      · rw [if_neg heq] at hl
        simp only [bind, Except.bind] at hl
        cases hb : find_path_between_standards s st.id o1.id with
        | error e => rw [hb] at hl; cases hl
        | ok bv =>
            rw [hb] at hl
            cases hrest : gapLinksFor s st os with
            | error e => rw [hrest] at hl; cases hl
            | ok restl =>
                rw [hrest] at hl
                rcases List.mem_cons.mp ho with rfl | ho2
                · rw [hpath] at hb
                  have hbv : bv = true := by injection hb with h2; rw [h2]
                  rw [hbv] at hl
                  simp only [if_true] at hl
                  have : l = (LinkTypes.LinkedTo, stdBase o) :: restl := by
                    cases hl; rfl
                  rw [this]
                  exact List.mem_cons_self _ _
                · have hrec := ih restl hrest o ho2 hne hpath
                  cases bv with
                  | true =>
                      simp only [if_true] at hl
                      have : l = (LinkTypes.LinkedTo, stdBase o1) :: restl := by
                        cases hl; rfl
                      rw [this]
                      exact List.mem_cons_of_mem _ hrec
                  | false =>
                      simp only [if_false] at hl
                      have : l = restl := by cases hl; rfl
                      rw [this]
                      exact hrec

theorem gapLinksFor_empty (s : DBState) (st : StdRow) :
    ∀ os : List StdRow,
      (∀ o ∈ os, o.id = st.id ∨ find_path_between_standards s st.id o.id = .ok false) →
      gapLinksFor s st os = .ok [] := by
  intro os
  induction os with
  | nil => intro _; rfl
  | cons o1 os ih =>
      intro h
      have hrest := ih (fun o ho => h o (List.mem_cons_of_mem _ ho))
      unfold gapLinksFor
      by_cases heq : st.id = o1.id
      · rw [if_pos heq]
        exact hrest
      · rw [if_neg heq]
        rcases h o1 (List.mem_cons_self _ _) with h1 | h1
        · exact absurd h1.symm heq
        · simp only [bind, Except.bind, h1, hrest]
          simp

/-- C5: path existence between two Standard nodes is decided over the
undirected view of the mirror and holds exactly when an undirected path
connects them; gap analysis attaches a LinkedTo annotation on a returned
standard toward every other returned standard (different row id) that is
so connected, attaches no link at all to a standard disconnected from
every other, and being a pure read persists nothing. -/
theorem path_and_gap_analysis :
    (∀ (s : DBState) (a b : Nat),
      GNode.std a ∈ s.graph.nodes → GNode.std b ∈ s.graph.nodes →
      (find_path_between_standards s a b = .ok true ↔
        Relation.ReflTransGen (UEdge s.graph) (.std a) (.std b))) ∧
    (∀ (s : DBState) (names : List String) (docs : List ResultDoc) (st o : StdRow),
      gap_analysis s names = .ok docs →
      st ∈ gapStandards s names → o ∈ gapStandards s names →
      o.id ≠ st.id → find_path_between_standards s st.id o.id = .ok true →
      ∃ doc ∈ docs, doc.base = stdBase st ∧ (LinkTypes.LinkedTo, stdBase o) ∈ doc.links) ∧
    (∀ (s : DBState) (names : List String) (docs : List ResultDoc) (st : StdRow),
      gap_analysis s names = .ok docs →
      st ∈ gapStandards s names →
      (∀ o ∈ gapStandards s names, o.id = st.id ∨
        find_path_between_standards s st.id o.id = .ok false) →
      ∃ doc ∈ docs, doc.base = stdBase st ∧ doc.links = []) := by
  refine ⟨?_, ?_, ?_⟩
  · intro s a b ha hb
    unfold find_path_between_standards
    rw [if_pos ⟨ha, hb⟩]
    constructor
    · intro h
      have hbv : reachableB s.graph.undirected (.std a) (.std b) = true :=
        Except.ok.inj h
      exact Relation.ReflTransGen.mono (fun x y hxy => edgeRel_undirected_iff.mp hxy)
        (reachableB_iff.mp hbv)
    · intro h
      have : reachableB s.graph.undirected (.std a) (.std b) = true :=
        reachableB_iff.mpr
          (Relation.ReflTransGen.mono (fun x y hxy => edgeRel_undirected_iff.mpr hxy) h)
      rw [this]
  · intro s names docs st o hga hst ho hne hpath
    obtain ⟨doc, hdoc, hdocs⟩ := mapE_ok_mem hga st hst
    cases hlf : gapLinksFor s st (gapStandards s names) with
    | error e => rw [hlf] at hdoc; cases hdoc
    | ok l =>
        rw [hlf] at hdoc
        have hdval : doc = ⟨stdBase st, l⟩ := by
          simp only [Except.map] at hdoc
          cases hdoc
          rfl
        refine ⟨doc, hdocs, by rw [hdval], ?_⟩
        rw [hdval]
        exact gapLinksFor_mem s st (gapStandards s names) l hlf o ho hne hpath
  · intro s names docs st hga hst hdisc
    obtain ⟨doc, hdoc, hdocs⟩ := mapE_ok_mem hga st hst
    have hlf := gapLinksFor_empty s st (gapStandards s names) hdisc
    rw [hlf] at hdoc
    have hdval : doc = ⟨stdBase st, []⟩ := by
      simp only [Except.map] at hdoc
      cases hdoc
      rfl
    exact ⟨doc, hdocs, by rw [hdval], by rw [hdval]⟩

/-- C5 witness: the path-existence equivalence at the connected pair
(A, C), the LinkedTo annotation A gains toward C, and the absence of any
link on the disconnected B. -/
theorem path_and_gap_analysis_witness :
    (find_path_between_standards gapState 1 2 = .ok true ↔
      Relation.ReflTransGen (UEdge gapState.graph) (.std 1) (.std 2)) ∧
    (∃ doc ∈ gapDocs, doc.base = stdBase ⟨1, "A", "s", "", "", "", ""⟩ ∧
      (LinkTypes.LinkedTo, stdBase ⟨2, "C", "s", "", "", "", ""⟩) ∈ doc.links) ∧
    (∃ doc ∈ gapDocs, doc.base = stdBase ⟨3, "B", "s", "", "", "", ""⟩ ∧
      doc.links = []) :=
  ⟨path_and_gap_analysis.1 gapState 1 2 (by decide) (by decide),
   path_and_gap_analysis.2.1 gapState ["A", "B", "C"] gapDocs
     ⟨1, "A", "s", "", "", "", ""⟩ ⟨2, "C", "s", "", "", "", ""⟩ (by decide)
     (by decide) (by decide) (by decide) (by decide),
   path_and_gap_analysis.2.2 gapState ["A", "B", "C"] gapDocs
     ⟨3, "B", "s", "", "", "", ""⟩ (by decide) (by decide) (by decide)⟩

/-! ## C6 -/

theorem searchAux_some {f : List Char → Option α} :
    ∀ {l : List Char} {v : α}, searchAux f l = some v → ∃ t, f t = some v := by
  intro l
  induction l with
  | nil => intro v h; exact ⟨[], h⟩
  | cons c rest ih =>
      intro v h
      unfold searchAux at h
      cases hf : f (c :: rest) with
      | some w => rw [hf] at h; exact ⟨c :: rest, hf.trans h⟩
      | none => rw [hf] at h; exact ih h

theorem creIdAt_ne_nil : ∀ {t i : List Char}, creIdAt t = some i → i ≠ [] := by
  intro t i h
  unfold creIdAt at h
  rw [Option.bind_eq_some] at h
  obtain ⟨r, _, h⟩ := h
  rw [Option.bind_eq_some] at h
  obtain ⟨r2, _, h⟩ := h
  unfold matchIdAt at h
  split at h
  · cases h
  · split at h
    · split at h
      · cases h
      · cases h
        simp
    · cases h

/-- C6: an input matched by the CRE external-identifier pattern resolves
exclusively through the exact external-id branch of text_search (the
get_CREs lookup by that id), never reaching the name branch, the
Standard branch or the fuzzy fallback; when no row carries that id the
result is the absent empty result, not a fallback scan. -/
theorem text_search_cre_id_branch :
    ∀ (s : DBState) (text : String) (i : List Char),
      searchAux creIdAt text.data = some i →
      text_search s text = get_CREs s (creIdQuery (String.mk i)) ∧
      ((∀ r ∈ s.cres, r.external_id ≠ String.mk i) →
        text_search s text = .ok none) := by
  intro s text i h
  have h1 : text_search s text = get_CREs s (creIdQuery (String.mk i)) := by
    unfold text_search
    rw [h]
  refine ⟨h1, ?_⟩
  intro hno
  rw [h1]
  have hne : i ≠ [] := by
    obtain ⟨t, ht⟩ := searchAux_some h
    exact creIdAt_ne_nil ht
  have hsne : String.mk i ≠ "" := by
    intro hc
    exact hne (congrArg String.data hc)
  unfold get_CREs creIdQuery
  rw [if_neg (fun hc => hsne hc.1)]
  have hrows : s.cres.filter (creFilter ⟨String.mk i, "", "", false, []⟩) = [] := by
    rw [List.filter_eq_nil_iff]
    intro r hr
    have hrne := hno r hr
    simp [creFilter, fieldCond, hsne, hrne]
  rw [hrows]
  rfl

/-- C6 witness: "CRE:123-456" on a store with no matching row resolves
through the id branch to the absent result. -/
theorem text_search_cre_id_branch_witness :
    text_search ⟨[], [], [], [], ⟨[], []⟩⟩ "CRE:123-456" =
      get_CREs ⟨[], [], [], [], ⟨[], []⟩⟩
        (creIdQuery (String.mk ['1', '2', '3', '-', '4', '5', '6'])) ∧
    text_search ⟨[], [], [], [], ⟨[], []⟩⟩ "CRE:123-456" = .ok none :=
  have hsearch : searchAux creIdAt ("CRE:123-456").data =
      some ['1', '2', '3', '-', '4', '5', '6'] := by decide
  have hmain := text_search_cre_id_branch ⟨[], [], [], [], ⟨[], []⟩⟩ "CRE:123-456"
    ['1', '2', '3', '-', '4', '5', '6'] hsearch
  ⟨hmain.1, hmain.2 (by intro r hr; cases hr)⟩

/-! ## C7 -/

theorem sepRestAt_dropWhile (l : List Char) :
    sepRestAt (l.dropWhile (fun c => decide (c ≠ '\n'))) = none := by
  induction l with
  | nil => rfl
  | cons c cs ih =>
      by_cases hc : c = '\n'
      · simp only [List.dropWhile_cons, hc]
        simp [sepRestAt, matchSep]
      · simp only [List.dropWhile_cons]
        rw [if_pos (by simp [hc])]
        exact ih

/-- The second and any later ((:| ).+) group of standard_search can
never capture: the first one is greedy up to the end of the line. -/
theorem stepGroup_sepRest_twice (cur : List Char) :
    (stepGroup sepRestAt (stepGroup sepRestAt cur).2).1 = none := by
  cases h : sepRestAt cur with
  | none =>
      unfold stepGroup
      rw [h]
      simp only []
      rw [h]
  | some p =>
      obtain ⟨w, rest⟩ := p
      have hrest : sepRestAt rest = none := by
        unfold sepRestAt at h
        rw [Option.bind_eq_some] at h
        obtain ⟨r2, _, h2⟩ := h
        split at h2
        · cases h2
        · have : rest = r2.dropWhile (fun c => decide (c ≠ '\n')) := by
            cases h2
            rfl
          rw [this]
          exact sepRestAt_dropWhile r2
      unfold stepGroup
      rw [h]
      simp only []
      rw [hrest]

theorem standardAt_val3_none :
    ∀ {t : List Char} {r : Option (List Char) × Option (List Char) ×
      Option (List Char) × Option (List Char)},
      standardAt t = some r → r.2.2.2 = none := by
  intro t r h
  unfold standardAt at h
  cases hlit : matchLit ['S', 't', 'a', 'n', 'd', 'a', 'r', 'd'] t with
  | none => rw [hlit] at h; cases h
  | some r0 =>
      rw [hlit] at h
      have hr := (Option.some.inj h).symm
      rw [hr]
      exact stepGroup_sepRest_twice _

theorem permQueryUnion_mem (s : DBState) (lk : String) :
    ∀ (combos : List (Option String × Option String × Option String))
      (r : List ResultDoc), permQueryUnion s lk combos = .ok r →
      ∀ d, d ∈ r ↔ ∃ c ∈ combos, ∃ l,
        get_standards s (stdComboQuery lk c) = .ok (some l) ∧ d ∈ l := by
  intro combos
  induction combos with
  | nil =>
      intro r h d
      have hr : r = [] := (Except.ok.inj h).symm
      subst hr
      simp
  | cons c rest ih =>
      intro r h d
      unfold permQueryUnion at h
      simp only [bind, Except.bind] at h
      cases hq : get_standards s (stdComboQuery lk c) with
      | error e => rw [hq] at h; cases h
      | ok stands =>
          rw [hq] at h
          cases hrest : permQueryUnion s lk rest with
          | error e => rw [hrest] at h; cases h
          | ok r2 =>
              rw [hrest] at h
              cases stands with
              | some l =>
                  have hr : r = l ++ r2 := by cases h; rfl
                  subst hr
                  constructor
                  · intro hd
                    rcases List.mem_append.mp hd with hd | hd
                    · exact ⟨c, List.mem_cons_self _ _, l, hq, hd⟩
                    · obtain ⟨c2, hc2, l2, hq2, hd2⟩ := (ih r2 hrest d).mp hd
                      exact ⟨c2, List.mem_cons_of_mem _ hc2, l2, hq2, hd2⟩
                  · rintro ⟨c2, hc2, l2, hq2, hd2⟩
                    rcases List.mem_cons.mp hc2 with rfl | hc3
                    · rw [hq] at hq2
                      have hl : l = l2 :=
                        Option.some.inj (Except.ok.inj hq2)
                      exact List.mem_append_left _ (hl ▸ hd2)
                    · exact List.mem_append_right _
                        ((ih r2 hrest d).mpr ⟨c2, hc3, l2, hq2, hd2⟩)
              | none =>
                  have hr : r = r2 := by cases h; rfl
                  subst hr
                  constructor
                  · intro hd
                    obtain ⟨c2, hc2, l2, hq2, hd2⟩ := (ih r hrest d).mp hd
                    exact ⟨c2, List.mem_cons_of_mem _ hc2, l2, hq2, hd2⟩
                  · rintro ⟨c2, hc2, l2, hq2, hd2⟩
                    rcases List.mem_cons.mp hc2 with rfl | hc3
                    · rw [hq] at hq2
                      exact (Option.some_ne_none l2 (Except.ok.inj hq2).symm).elim
                    · exact (ih r hrest d).mpr ⟨c2, hc3, l2, hq2, hd2⟩

/-- C7 counterexample: on "Standard:OWASP:V1:1.1" text_search returns no
documents, while the union over the permutations of the three separate
tokens OWASP, V1, 1.1 returns the stored row: the greedy second capture
of the pattern is the single value "V1:1.1", so the code never queries
section V1 with subsection 1.1. -/
theorem text_search_standard_tokens_cex :
    text_search owaspState "Standard:OWASP:V1:1.1" = .ok (some []) ∧
    claimedStandardSearch owaspState "OWASP" "V1" "1.1" =
      .ok (some [⟨stdBase ⟨1, "OWASP", "V1", "1.1", "", "", ""⟩, []⟩]) ∧
    text_search owaspState "Standard:OWASP:V1:1.1" ≠
      claimedStandardSearch owaspState "OWASP" "V1" "1.1" :=
  ⟨by decide, by decide, by decide⟩

/-- C7 amended: for an input matched by the Standard pattern that
reached the Standard branch, the captured trailing values are val1 (the
first word token), val2 (the whole greedy remainder up to the end of the
line, swallowing any further colon-separated tokens) and val3 (never
captured); text_search returns the deduplicated union, over all six
(name, section, subsection) permutation assignments of those captured
values, of every query with a non-empty result. -/
theorem text_search_standard_branch_amended :
    ∀ (s : DBState) (text : String) (lk v1 v2 v3 : Option (List Char)),
      searchAux creIdAt text.data = none →
      searchAux nakedIdAt text.data = none →
      searchAux creNameAt text.data = none →
      searchAux standardAt text.data = some (lk, v1, v2, v3) →
      v3 = none ∧
      text_search s text =
        standardBranch s ((lk.map String.mk).getD "") (v1.map String.mk)
          (v2.map String.mk) (v3.map String.mk) ∧
      (∀ res, permQueryUnion s ((lk.map String.mk).getD "")
          (perm3 (v1.map String.mk) (v2.map String.mk) (v3.map String.mk)) =
            .ok res →
        text_search s text = .ok (some res.dedup) ∧
        ∀ d, d ∈ res.dedup ↔
          ∃ c ∈ perm3 (v1.map String.mk) (v2.map String.mk) (v3.map String.mk),
            ∃ l, get_standards s
              (stdComboQuery ((lk.map String.mk).getD "") c) = .ok (some l) ∧
              d ∈ l) := by
  intro s text lk v1 v2 v3 h1 h2 h3 h4
  have hv3 : v3 = none := by
    obtain ⟨t, ht⟩ := searchAux_some h4
    exact standardAt_val3_none ht
  have hbr : text_search s text =
      standardBranch s ((lk.map String.mk).getD "") (v1.map String.mk)
        (v2.map String.mk) (v3.map String.mk) := by
    unfold text_search
    rw [h1, h2, h3, h4]
  refine ⟨hv3, hbr, ?_⟩
  intro res hres
  have hval : text_search s text = .ok (some res.dedup) := by
    rw [hbr]
    unfold standardBranch
    rw [hres]
    rfl
  refine ⟨hval, ?_⟩
  intro d
  rw [List.mem_dedup]
  exact permQueryUnion_mem s ((lk.map String.mk).getD "") _ res hres d

/-- C7 witness: the amended behaviour instantiated on the concrete store
and input of the counterexample. -/
theorem text_search_standard_branch_amended_witness :
    text_search owaspState "Standard:OWASP:V1:1.1" =
      .ok (some ([] : List ResultDoc).dedup) ∧
    ∀ d : ResultDoc, d ∈ ([] : List ResultDoc).dedup ↔
      ∃ c ∈ perm3 (some (String.mk "OWASP".data))
        (some (String.mk "V1:1.1".data)) (none : Option String),
        ∃ l, get_standards owaspState (stdComboQuery "" c) = .ok (some l) ∧
          d ∈ l := by
  have h := text_search_standard_branch_amended owaspState "Standard:OWASP:V1:1.1"
    none (some "OWASP".data) (some "V1:1.1".data) none (by decide) (by decide)
    (by decide) (by decide)
  have h3 := h.2.2 [] (by decide)
  exact ⟨h3.1, h3.2⟩

/-! ## C10 -/

theorem add_cre_eq_insert (s : DBState) (c : CreDef)
    (hf : s.cres.find? (creUpsertPred c) = none) :
    add_cre s c = .ok (freshCreRow s c, creInsertOut s c) := by
  unfold add_cre
  rw [hf]
  rfl

theorem add_cre_eq_update (s : DBState) (c : CreDef) (e : CreRow)
    (hf : s.cres.find? (creUpsertPred c) = some e)
    (hg : ¬ (e.external_id = "" ∧ e.external_id ≠ c.id)) :
    add_cre s c = .ok (creUpsertUpd c e, creUpdateOut s c) := by
  unfold add_cre
  rw [hf]
  exact if_neg hg

theorem add_cre_eq_raise (s : DBState) (c : CreDef) (e : CreRow)
    (hf : s.cres.find? (creUpsertPred c) = some e)
    (hg : e.external_id = "" ∧ e.external_id ≠ c.id) :
    add_cre s c = .error .valueErr := by
  unfold add_cre
  rw [hf]
  exact if_pos hg

theorem find?_updateFirst_decomp {p : α → Bool} {f : α → α} :
    ∀ {l : List α} {e : α}, l.find? p = some e →
      ∃ l1 l2, l = l1 ++ e :: l2 ∧ updateFirst p f l = l1 ++ f e :: l2 := by
  intro l
  induction l with
  | nil => intro e h; cases h
  | cons x xs ih =>
      intro e h
      by_cases hp : p x
      · have hx : e = x := by
          rw [List.find?_cons_of_pos _ hp] at h
          exact (Option.some.inj h).symm
        subst hx
        exact ⟨[], xs, rfl, by simp [updateFirst, hp]⟩
      · rw [List.find?_cons_of_neg _ hp] at h
        obtain ⟨l1, l2, heq, hupd⟩ := ih h
        refine ⟨x :: l1, l2, by rw [heq]; rfl, ?_⟩
        simp [updateFirst, hp, hupd]

theorem creUpsertUpd_id (cre : CreDef) (r : CreRow) :
    (creUpsertUpd cre r).id = r.id := by
  unfold creUpsertUpd
  split <;> split <;> split <;> rfl

theorem creUpsertUpd_external_id (cre : CreDef) (r : CreRow)
    (h : ¬ (r.external_id = "" ∧ r.external_id ≠ cre.id)) :
    (creUpsertUpd cre r).external_id = r.external_id := by
  unfold creUpsertUpd
  by_cases he : r.external_id = ""
  · have hid : r.external_id = cre.id := by
      by_contra hne
      exact h ⟨he, hne⟩
    rw [if_pos he]
    split <;> split <;> rw [← hid]
  · rw [if_neg he]
    split <;> split <;> rfl

/-- C10 amended: add_cre never changes the external identifier of any
pre-existing row.  When the lookup finds a row, the empty-id guard can
only pass with the stored and incoming identifiers equal (otherwise
ValueError is raised and nothing is written), and when a non-empty id
matches no row a fresh row is inserted leaving every old row intact; in
particular supplying a non-empty id for a previously id-less row of the
same name does not raise and does not touch that row. -/
theorem add_cre_preserves_external_id :
    ∀ (s : DBState) (c : CreDef) (entry : CreRow) (s1 : DBState) (r : CreRow),
      add_cre s c = .ok (entry, s1) → r ∈ s.cres →
      ∃ r1 ∈ s1.cres, r1.id = r.id ∧ r1.external_id = r.external_id := by
  intro s c entry s1 r hok hr
  cases hf : s.cres.find? (creUpsertPred c) with
  | none =>
      rw [add_cre_eq_insert s c hf] at hok
      have hs1 : s1 = creInsertOut s c :=
        (congrArg Prod.snd (Except.ok.inj hok)).symm
      refine ⟨r, ?_, rfl, rfl⟩
      rw [hs1]
      exact List.mem_append_left _ hr
  | some e =>
      by_cases hguard : e.external_id = "" ∧ e.external_id ≠ c.id
      · rw [add_cre_eq_raise s c e hf hguard] at hok
        cases hok
      · rw [add_cre_eq_update s c e hf hguard] at hok
        have hs1 : s1 = creUpdateOut s c :=
          (congrArg Prod.snd (Except.ok.inj hok)).symm
        obtain ⟨l1, l2, hsplit, hupd⟩ :=
          find?_updateFirst_decomp (f := creUpsertUpd c) hf
        rw [hsplit] at hr
        rcases List.mem_append.mp hr with h1 | h1
        · refine ⟨r, ?_, rfl, rfl⟩
          rw [hs1]
          show r ∈ updateFirst (creUpsertPred c) (creUpsertUpd c) s.cres
          rw [hupd]
          exact List.mem_append_left _ h1
        · rcases List.mem_cons.mp h1 with rfl | h2
          · refine ⟨creUpsertUpd c r, ?_, creUpsertUpd_id c r,
              creUpsertUpd_external_id c r hguard⟩
            rw [hs1]
            show creUpsertUpd c r ∈
              updateFirst (creUpsertPred c) (creUpsertUpd c) s.cres
            rw [hupd]
            exact List.mem_append_right _ (List.mem_cons_self _ _)
          · refine ⟨r, ?_, rfl, rfl⟩
            rw [hs1]
            show r ∈ updateFirst (creUpsertPred c) (creUpsertUpd c) s.cres
            rw [hupd]
            exact List.mem_append_right _ (List.mem_cons_of_mem _ h2)

/-- C10 counterexample: an upsert carrying a non-empty id while the only
row with that name has an empty external_id does not raise ValueError
and does perform an update: the lookup (which filters on the non-empty
id) finds nothing and a fresh row is inserted next to the old one. -/
theorem add_cre_existing_emptyid_cex :
    add_cre emptyIdState newIdDef =
      .ok (⟨2, "123-456", "newdesc", "x", ""⟩, emptyIdOutState) := by decide

/-- C10 witness: the no-rewrite guarantee instantiated on the
counterexample input: the old id-less row survives unchanged. -/
theorem add_cre_preserves_external_id_witness :
    ∃ r1 ∈ emptyIdOutState.cres, r1.id = 1 ∧ r1.external_id = "" :=
  add_cre_preserves_external_id emptyIdState newIdDef
    ⟨2, "123-456", "newdesc", "x", ""⟩ emptyIdOutState ⟨1, "", "d", "x", ""⟩
    (by decide) (by decide)
